import Mathlib

/-!
# TexturesGenerator: the deferred paint-job queue

A shallow embedding of `WebCore/platform/graphics/android/TexturesGenerator.cpp`.

* A `QueuedOperation*` is an address (`OpPtr`), with `0` the null pointer.  The
  source never reads a field of a job: it compares pointers, hands them to
  `filter->check`, calls `run()` and `delete`.
* `TexturesGenerator` holds the three data members the source uses and five
  observation fields recording the calls the source makes on its collaborators
  (`delete`, `run()`, `filter->check`, the two condition variables).
* Every function below is one lock-delimited section of the source, or a loop
  of it, with the line numbers it embeds.  The loops are total functions: their
  termination is proved where they are defined.
* The coalescing key of a job, what `operator==` of `QueuedOperation` compares,
  is declared outside this source file; properties that mention it take it as a
  parameter `key : OpPtr → Nat`.
-/

namespace WebCore

/-- A `QueuedOperation*`: the address of a job object; `0` is the null pointer. -/
abbrev OpPtr := Nat

/-- An `OperationFilter`, given by its `check` method. -/
abbrev OperationFilter := OpPtr → Bool

/-- The members of `TexturesGenerator` used by the source, followed by the
observation fields: `deleted` lists the operands of `delete` on a job,
`ran` the receivers of `run()`, `checked` the arguments of `filter->check`,
each in call order; `newRequestSignals` and `completionSignals` count
`m_newRequestCond.signal()` and `mRequestedOperationsCond.signal()`. -/
structure TexturesGenerator where
  mRequestedOperations : List OpPtr
  m_currentOperation : OpPtr
  m_waitForCompletion : Bool
  deleted : List OpPtr
  ran : List OpPtr
  checked : List OpPtr
  newRequestSignals : Nat
  completionSignals : Nat
  deriving DecidableEq, Repr

/-- The generator before anything was scheduled: empty queue, no current operation. -/
def TexturesGenerator.initial : TexturesGenerator :=
  { mRequestedOperations := [], m_currentOperation := 0, m_waitForCompletion := false,
    deleted := [], ran := [], checked := [], newRequestSignals := 0, completionSignals := 0 }

/-- The effect of `delete p` on the list of destroyed jobs: deleting the null
pointer destroys nothing. -/
def destroy (p : OpPtr) (deleted : List OpPtr) : List OpPtr :=
  if p = 0 then deleted else deleted ++ [p]

/-! ## scheduleOperation (lines 54-74) -/

/-- Lines 57-73 from loop index `i` on.  The test of line 62, `*s && *s == operation`,
compares two `QueuedOperation*` values: it is a comparison of addresses. -/
def scheduleOperationFrom (operation : OpPtr) (g : TexturesGenerator) (i : Nat) :
    TexturesGenerator :=
  if h : i < g.mRequestedOperations.length then
    let s := g.mRequestedOperations[i]
    if s ≠ 0 ∧ s = operation then
      let oldOperation := s
      { g with mRequestedOperations := g.mRequestedOperations.set i operation,
               deleted := destroy oldOperation g.deleted }
    else
      scheduleOperationFrom operation g (i + 1)
  else
    { g with mRequestedOperations := g.mRequestedOperations ++ [operation],
             newRequestSignals := g.newRequestSignals + 1 }
termination_by g.mRequestedOperations.length - i

/-- The function `TexturesGenerator::scheduleOperation`, lines 54-74. -/
def scheduleOperation (operation : OpPtr) (g : TexturesGenerator) : TexturesGenerator :=
  scheduleOperationFrom operation g 0

/-- A sequence of `scheduleOperation` calls, in order. -/
def scheduleAll (operations : List OpPtr) (g : TexturesGenerator) : TexturesGenerator :=
  operations.foldl (fun acc operation => scheduleOperation operation acc) g

/-! ## removeOperationsForFilter (lines 86-117) -/

/-- Lines 89-97 from loop index `i` on: the removal loop. -/
def removeLoop (filter : OperationFilter) (g : TexturesGenerator) (i : Nat) :
    TexturesGenerator :=
  if h : i < g.mRequestedOperations.length then
    let operation := g.mRequestedOperations[i]
    if filter operation then
      removeLoop filter
        { g with mRequestedOperations := g.mRequestedOperations.eraseIdx i,
                 deleted := destroy operation g.deleted,
                 checked := g.checked ++ [operation] } i
    else
      removeLoop filter { g with checked := g.checked ++ [operation] } (i + 1)
  else g
termination_by g.mRequestedOperations.length - i
decreasing_by
  all_goals simp_wf
  · rw [List.length_eraseIdx]
    simp only [h, if_true]
    omega
  · omega

/-- Lines 88-103: the section of `removeOperationsForFilter` run under
`mRequestedOperationsLock`: the removal loop, then the test of the current operation. -/
def removeOperationsLocked (filter : OperationFilter) (g : TexturesGenerator) :
    TexturesGenerator :=
  let g1 := removeLoop filter g 0
  let operation := g1.m_currentOperation
  if operation ≠ 0 then
    let g2 := { g1 with checked := g1.checked ++ [operation] }
    if filter operation then { g2 with m_waitForCompletion := true } else g2
  else g1

/-- How control leaves lines 88-114: by the `return` of line 107, or blocked in
`mRequestedOperationsCond.wait` at line 114. -/
inductive CancelOutcome where
  | returned
  | waiting
  deriving DecidableEq, Repr

/-- Lines 106-107: the test of `m_waitForCompletion` after the lock is released. -/
def removeOperationsDecide (g : TexturesGenerator) : CancelOutcome :=
  if !g.m_waitForCompletion then CancelOutcome.returned else CancelOutcome.waiting

/-- Lines 86-114 of `TexturesGenerator::removeOperationsForFilter`, run with no
other thread in between: the state left behind and how control leaves. -/
def removeOperationsForFilter (filter : OperationFilter) (g : TexturesGenerator) :
    TexturesGenerator × CancelOutcome :=
  let g1 := removeOperationsLocked filter g
  (g1, removeOperationsDecide g1)

/-- Lines 115-116: what the canceller does once woken from the wait. -/
def removeOperationsWoken (g : TexturesGenerator) : TexturesGenerator :=
  { g with m_waitForCompletion := false }

/-! ## threadLoop (lines 130-179) -/

/-- Lines 150-157: pop the first request, under the lock. -/
def threadLoopPop (g : TexturesGenerator) : TexturesGenerator :=
  match g.mRequestedOperations with
  | first :: rest => { g with m_currentOperation := first, mRequestedOperations := rest }
  | [] => g

/-- Lines 159-163: run the current operation, outside the lock. -/
def threadLoopRun (g : TexturesGenerator) : TexturesGenerator :=
  if g.m_currentOperation ≠ 0 then { g with ran := g.ran ++ [g.m_currentOperation] } else g

/-- Lines 165-175: delete the current operation, clear the slot and signal,
under the lock; the second component is the value of `stop`. -/
def threadLoopFinish (g : TexturesGenerator) : TexturesGenerator × Bool :=
  let g1 :=
    if g.m_currentOperation ≠ 0 then
      { g with deleted := destroy g.m_currentOperation g.deleted,
               m_currentOperation := 0,
               completionSignals := g.completionSignals + 1 }
    else g
  let stop := decide (g1.mRequestedOperations.length = 0)
  let g2 :=
    if g1.m_waitForCompletion then
      { g1 with completionSignals := g1.completionSignals + 1 }
    else g1
  (g2, stop)

/-- One iteration of the `while (!stop)` loop, lines 149-175. -/
def threadLoopIteration (g : TexturesGenerator) : TexturesGenerator × Bool :=
  threadLoopFinish (threadLoopRun (threadLoopPop g))

/-- The `while (!stop)` loop of lines 148-176, with no other thread in between:
the state at loop exit and the number of iterations made. -/
def threadLoopWhile (g : TexturesGenerator) : TexturesGenerator × Nat :=
  let r := threadLoopIteration g
  if h : r.2 = true then (r.1, 1)
  else
    let r2 := threadLoopWhile r.1
    (r2.1, r2.2 + 1)
termination_by g.mRequestedOperations.length
decreasing_by
  simp_wf
  have hqueue : (threadLoopIteration g).1.mRequestedOperations
      = g.mRequestedOperations.tail := by
    unfold threadLoopIteration threadLoopFinish threadLoopRun threadLoopPop
    cases hq : g.mRequestedOperations <;> simp only [] <;> split_ifs <;> simp [hq]
  have hstop : (threadLoopIteration g).2
      = decide (g.mRequestedOperations.tail.length = 0) := by
    unfold threadLoopIteration threadLoopFinish threadLoopRun threadLoopPop
    cases hq : g.mRequestedOperations <;> simp only [] <;> split_ifs <;> simp [hq]
  rw [hstop] at h
  rw [hqueue]
  cases hq : g.mRequestedOperations with
  | nil => simp [hq] at h
  | cons a t => simp

/-- Lines 146-176: clear the current-operation slot, then drain the queue. -/
def threadLoopDrain (g : TexturesGenerator) : TexturesGenerator × Nat :=
  threadLoopWhile { g with m_currentOperation := 0 }

/-! ## The threads

The steps of a thread are the lock-delimited sections above.  A thread blocked
in a condition wait takes no step until it is signalled; a signal raised while
nobody waits is lost. -/

/-- Where the worker stands in `threadLoop`: `entry` line 132, `idle` blocked in
the wait of line 138, `reset` line 146, `pop` line 150, `run` line 159,
`finish` line 165. -/
inductive WorkerPc where
  | entry
  | idle
  | reset
  | pop
  | run
  | finish
  deriving DecidableEq, Repr

/-- Where a caller of `removeOperationsForFilter` stands: `start` line 88,
`test` line 106, `relock` line 113, `waiting` blocked in the wait of line 114,
`woken` line 115 (signalled, the lock not yet taken back), `returned`. -/
inductive CancelPc where
  | start
  | test
  | relock
  | waiting
  | woken
  | returned
  deriving DecidableEq, Repr

/-- The generator together with the two threads acting on it. -/
structure System where
  gen : TexturesGenerator
  worker : WorkerPc
  canceller : CancelPc
  deriving DecidableEq, Repr

/-- Delivery of `mRequestedOperationsCond.signal()`: if the signal count went up
and the canceller is blocked in the wait, it becomes runnable. -/
def wake (before after : Nat) (c : CancelPc) : CancelPc :=
  if before < after ∧ c = CancelPc.waiting then CancelPc.woken else c

/-- One step of the worker thread; `none` when it is blocked.  When `threadLoop`
returns `true` (line 178) the thread calls it again. -/
def workerStep (s : System) : Option System :=
  match s.worker with
  | WorkerPc.entry =>
    if s.gen.mRequestedOperations.length = 0 then some { s with worker := WorkerPc.idle }
    else some { s with worker := WorkerPc.reset }
  | WorkerPc.idle => none
  | WorkerPc.reset =>
    some { s with gen := { s.gen with m_currentOperation := 0 }, worker := WorkerPc.pop }
  | WorkerPc.pop => some { s with gen := threadLoopPop s.gen, worker := WorkerPc.run }
  | WorkerPc.run => some { s with gen := threadLoopRun s.gen, worker := WorkerPc.finish }
  | WorkerPc.finish =>
    let r := threadLoopFinish s.gen
    some { gen := r.1,
           worker := if r.2 then WorkerPc.entry else WorkerPc.pop,
           canceller := wake s.gen.completionSignals r.1.completionSignals s.canceller }

/-- One step of the thread calling `removeOperationsForFilter(filter)`; `none`
when it is blocked or has returned. -/
def cancelStep (filter : OperationFilter) (s : System) : Option System :=
  match s.canceller with
  | CancelPc.start =>
    some { s with gen := removeOperationsLocked filter s.gen, canceller := CancelPc.test }
  | CancelPc.test =>
    match removeOperationsDecide s.gen with
    | CancelOutcome.returned => some { s with canceller := CancelPc.returned }
    | CancelOutcome.waiting => some { s with canceller := CancelPc.relock }
  | CancelPc.relock => some { s with canceller := CancelPc.waiting }
  | CancelPc.waiting => none
  | CancelPc.woken =>
    some { s with gen := removeOperationsWoken s.gen, canceller := CancelPc.returned }
  | CancelPc.returned => none

/-! ## Vocabulary of the properties -/

/-- The non-null entries of a queue: the jobs it holds. -/
def jobsOf (ops : List OpPtr) : List OpPtr :=
  ops.filter (fun p => decide (p ≠ 0))

/-- At most one job per coalescing key; `key` is what `operator==` of
`QueuedOperation` compares (its declaration is not part of the source file). -/
def OnePerKey (key : OpPtr → Nat) (ops : List OpPtr) : Prop :=
  ops.Pairwise (fun a b => key a ≠ key b)

instance (key : OpPtr → Nat) (ops : List OpPtr) : Decidable (OnePerKey key ops) := by
  unfold OnePerKey
  infer_instance

/-- The reference definition of scheduling, in the words of the specification:
replace the first entry equal to `job` by coalescing key in place, else append. -/
def scheduleReference (key : OpPtr → Nat) (job : OpPtr) : List OpPtr → List OpPtr
  | [] => [job]
  | entry :: rest =>
    if key entry = key job then job :: rest
    else entry :: scheduleReference key job rest

/-! ## Producers, the canceller and the worker together

The system of the previous section, with calls of `scheduleOperation` by
producer threads and with the canceller calling again after it has returned. -/

/-- The system at start-up: nothing scheduled, the worker entering `threadLoop`,
no cancellation under way. -/
def System.initial : System :=
  { gen := TexturesGenerator.initial, worker := WorkerPc.entry, canceller := CancelPc.returned }

/-- Delivery of `m_newRequestCond.signal()`: if the signal count went up and the
worker is blocked in the wait of line 138, it goes on to line 146. -/
def wakeWorker (before after : Nat) (w : WorkerPc) : WorkerPc :=
  if before < after ∧ w = WorkerPc.idle then WorkerPc.reset else w

/-- A call of `scheduleOperation(operation)` by a producer: one step, the lock
of line 56 being held to the end of the function. -/
def scheduleStep (operation : OpPtr) (s : System) : System :=
  { s with
    gen := scheduleOperation operation s.gen,
    worker := wakeWorker s.gen.newRequestSignals
      (scheduleOperation operation s.gen).newRequestSignals s.worker }

/-- The step relation of the whole system.  `allowed g j` says which jobs a
producer may submit in state `g`; the canceller may start a new call, with any
filter, once its previous call has returned. -/
inductive Next (allowed : TexturesGenerator → OpPtr → Prop) : System → System → Prop where
  | worker {s t : System} : workerStep s = some t → Next allowed s t
  | canceller {s t : System} (filter : OperationFilter) :
      cancelStep filter s = some t → Next allowed s t
  | call {s t : System} :
      s.canceller = CancelPc.returned → t = { s with canceller := CancelPc.start } →
        Next allowed s t
  | schedule {s t : System} (operation : OpPtr) :
      allowed s.gen operation → t = scheduleStep operation s → Next allowed s t

/-- No restriction on what producers submit. -/
def anyJob : TexturesGenerator → OpPtr → Prop :=
  fun _ _ => True

/-- Producers do not submit the job that is in the current-operation slot. -/
def notCurrent : TexturesGenerator → OpPtr → Prop :=
  fun g operation => operation = 0 ∨ operation ≠ g.m_currentOperation

/-- The states the system can be in: reachable from start-up by steps of the
worker, of the canceller and of producers, in any interleaving. -/
def Reachable (allowed : TexturesGenerator → OpPtr → Prop) (s : System) : Prop :=
  Relation.ReflTransGen (Next allowed) System.initial s

/-- The job in the current-operation slot, if any, is not an entry of the queue. -/
def Exclusive (g : TexturesGenerator) : Prop :=
  g.m_currentOperation ≠ 0 → g.m_currentOperation ∉ g.mRequestedOperations

/-- A stranded canceller: blocked in the wait of line 114 while the slot is empty,
the queue is empty and the worker is blocked waiting for new work. -/
def Stranded (s : System) : Prop :=
  s.canceller = CancelPc.waiting ∧ s.gen.m_currentOperation = 0
    ∧ s.gen.mRequestedOperations = [] ∧ s.worker = WorkerPc.idle

/-- The canceller is between line 101, where it sets `m_waitForCompletion`, and
line 115, where it clears it. -/
def InDrainWait (c : CancelPc) : Prop :=
  c = CancelPc.test ∨ c = CancelPc.relock ∨ c = CancelPc.waiting ∨ c = CancelPc.woken

/-- Producers submit only jobs the generator neither holds nor has destroyed. -/
def freshJob : TexturesGenerator → OpPtr → Prop :=
  fun g operation =>
    operation = 0 ∨ (operation ∉ g.mRequestedOperations ∧ operation ≠ g.m_currentOperation
      ∧ operation ∉ g.deleted)

/-- No job was destroyed twice, and no destroyed job is queued or current. -/
def DestroyedOnce (g : TexturesGenerator) : Prop :=
  g.deleted.Nodup
    ∧ ∀ p ∈ g.deleted, p ≠ 0 ∧ p ∉ g.mRequestedOperations ∧ p ≠ g.m_currentOperation

/-! ## Two callers of removeOperationsForFilter

`m_waitForCompletion` and `mRequestedOperationsCond` are shared by every thread
that calls `removeOperationsForFilter`.  Here two such threads run next to the
worker and the producers, each with its own filter. -/

/-- The generator, the worker, and two threads calling `removeOperationsForFilter`. -/
structure Callers where
  gen : TexturesGenerator
  worker : WorkerPc
  first : CancelPc
  second : CancelPc
  deriving DecidableEq, Repr

/-- Start-up: nothing scheduled, the worker entering `threadLoop`, no call under way. -/
def Callers.initial : Callers :=
  { gen := TexturesGenerator.initial, worker := WorkerPc.entry,
    first := CancelPc.returned, second := CancelPc.returned }

/-- How many of the two callers are blocked in the wait of line 114. -/
def waitingCount (a b : CancelPc) : Nat :=
  (if a = CancelPc.waiting then 1 else 0) + (if b = CancelPc.waiting then 1 else 0)

/-- Delivery of `signals` calls of `mRequestedOperationsCond.signal()` to callers
standing at `a` and `b`, leaving them at `a2` and `b2`: each signal makes one
caller blocked in the wait runnable, if there is one, and is lost otherwise. -/
def Delivered (signals : Nat) (a b a2 b2 : CancelPc) : Prop :=
  (a2 = a ∨ (a = CancelPc.waiting ∧ a2 = CancelPc.woken))
    ∧ (b2 = b ∨ (b = CancelPc.waiting ∧ b2 = CancelPc.woken))
    ∧ waitingCount a b - waitingCount a2 b2 = min signals (waitingCount a b)

instance (signals : Nat) (a b a2 b2 : CancelPc) : Decidable (Delivered signals a b a2 b2) := by
  unfold Delivered
  infer_instance

/-- One step of the worker, the callers standing at `a` and `b` afterwards. -/
def callersWorkerStep (a b : CancelPc) (s : Callers) : Option Callers :=
  match workerStep { gen := s.gen, worker := s.worker, canceller := CancelPc.returned } with
  | some t =>
    if Delivered (t.gen.completionSignals - s.gen.completionSignals) s.first s.second a b then
      some { gen := t.gen, worker := t.worker, first := a, second := b }
    else none
  | none => none

/-- One step of the first caller, calling with `filter`. -/
def firstStep (filter : OperationFilter) (s : Callers) : Option Callers :=
  match cancelStep filter { gen := s.gen, worker := s.worker, canceller := s.first } with
  | some t => some { s with gen := t.gen, first := t.canceller }
  | none => none

/-- One step of the second caller, calling with `filter`. -/
def secondStep (filter : OperationFilter) (s : Callers) : Option Callers :=
  match cancelStep filter { gen := s.gen, worker := s.worker, canceller := s.second } with
  | some t => some { s with gen := t.gen, second := t.canceller }
  | none => none

/-- A call of `scheduleOperation(operation)` by a producer. -/
def callersSchedule (operation : OpPtr) (s : Callers) : Callers :=
  { s with
    gen := scheduleOperation operation s.gen,
    worker := wakeWorker s.gen.newRequestSignals
      (scheduleOperation operation s.gen).newRequestSignals s.worker }

/-- The step relation with two callers: the first calls with `filterA`, the
second with `filterB`, each again once its previous call has returned. -/
inductive CallersNext (filterA filterB : OperationFilter) : Callers → Callers → Prop where
  | worker {s t : Callers} (a b : CancelPc) :
      callersWorkerStep a b s = some t → CallersNext filterA filterB s t
  | first {s t : Callers} : firstStep filterA s = some t → CallersNext filterA filterB s t
  | second {s t : Callers} : secondStep filterB s = some t → CallersNext filterA filterB s t
  | callFirst {s t : Callers} :
      s.first = CancelPc.returned → t = { s with first := CancelPc.start } →
        CallersNext filterA filterB s t
  | callSecond {s t : Callers} :
      s.second = CancelPc.returned → t = { s with second := CancelPc.start } →
        CallersNext filterA filterB s t
  | schedule {s t : Callers} (operation : OpPtr) :
      t = callersSchedule operation s → CallersNext filterA filterB s t

/-- The states reachable from start-up with two callers. -/
def CallersReachable (filterA filterB : OperationFilter) (s : Callers) : Prop :=
  Relation.ReflTransGen (CallersNext filterA filterB) Callers.initial s

/-! ## Basic facts about the loops -/

theorem destroy_eq (p : OpPtr) (deleted : List OpPtr) :
    destroy p deleted = deleted ++ jobsOf [p] := by
  unfold destroy jobsOf
  by_cases hp : p = 0 <;> simp [hp]

theorem removeLoop_eq (filter : OperationFilter) (g : TexturesGenerator) (i : Nat) :
    removeLoop filter g i =
      { g with
        mRequestedOperations :=
          g.mRequestedOperations.take i
            ++ (g.mRequestedOperations.drop i).filter (fun p => !filter p),
        deleted := g.deleted ++ jobsOf ((g.mRequestedOperations.drop i).filter filter),
        checked := g.checked ++ g.mRequestedOperations.drop i } := by
  induction g, i using removeLoop.induct filter with
  | case1 g i h operation hf ih =>
    rw [removeLoop]
    simp only [h, dite_true, operation, hf, if_true] at ih ⊢
    rw [ih]
    have hdrop : g.mRequestedOperations.drop i
        = g.mRequestedOperations[i] :: g.mRequestedOperations.drop (i + 1) :=
      List.drop_eq_getElem_cons h
    have htake : (g.mRequestedOperations.eraseIdx i).take i = g.mRequestedOperations.take i := by
      rw [List.eraseIdx_eq_take_drop_succ, List.take_append_of_le_length (by simp; omega)]
      simp
    have hdrop2 : (g.mRequestedOperations.eraseIdx i).drop i
        = g.mRequestedOperations.drop (i + 1) := by
      rw [List.eraseIdx_eq_take_drop_succ, List.drop_append_of_le_length (by simp; omega)]
      simp [List.drop_take]
    simp only [htake, hdrop2, hdrop, destroy_eq, jobsOf, List.filter_cons, hf]
    by_cases h0 : g.mRequestedOperations[i] = 0 <;> simp [h0]
  | case2 g i h operation hf ih =>
    rw [removeLoop]
    simp only [h, dite_true, operation, hf] at ih ⊢
    rw [ih]
    have hdrop : g.mRequestedOperations.drop i
        = g.mRequestedOperations[i] :: g.mRequestedOperations.drop (i + 1) :=
      List.drop_eq_getElem_cons h
    have htake : g.mRequestedOperations.take (i + 1)
        = g.mRequestedOperations.take i ++ [g.mRequestedOperations[i]] := by
      rw [List.take_succ, List.getElem?_eq_getElem h]
      rfl
    simp only [hdrop, List.filter_cons, hf]
    simp only [Bool.not_false, if_true, Bool.false_eq_true, if_false,
      TexturesGenerator.mk.injEq, true_and, and_true]
    refine ⟨?_, ?_⟩
    · rw [htake, List.append_assoc]
      rfl
    · rw [List.append_assoc]
      rfl
  | case3 g i h =>
    rw [removeLoop]
    simp only [h, dite_false]
    have hlen : g.mRequestedOperations.length ≤ i := Nat.le_of_not_lt h
    simp [List.drop_eq_nil_of_le hlen, List.take_of_length_le hlen, jobsOf]

theorem set_same_entry (ops : List OpPtr) (i : Nat) (h : i < ops.length) :
    ops.set i ops[i] = ops := by
  apply List.ext_getElem (by simp)
  intro n h1 h2
  rw [List.getElem_set]
  split_ifs with heq
  · subst heq
    rfl
  · rfl

theorem scheduleOperationFrom_absent (operation : OpPtr) (g : TexturesGenerator) (i : Nat)
    (hno : ∀ k, i ≤ k → ∀ hk : k < g.mRequestedOperations.length,
      ¬ (g.mRequestedOperations[k] ≠ 0 ∧ g.mRequestedOperations[k] = operation)) :
    scheduleOperationFrom operation g i =
      { g with mRequestedOperations := g.mRequestedOperations ++ [operation],
               newRequestSignals := g.newRequestSignals + 1 } := by
  induction i using scheduleOperationFrom.induct operation g with
  | case1 i h s hs =>
    exact absurd hs (hno i (Nat.le_refl i) h)
  | case2 i h s hs ih =>
    rw [scheduleOperationFrom]
    simp only [h, dite_true, s, hs, if_false] at ih ⊢
    exact ih (fun k hik hk => hno k (by omega) hk)
  | case3 i h =>
    rw [scheduleOperationFrom]
    simp only [h, dite_false]

theorem scheduleOperationFrom_present (operation : OpPtr) (g : TexturesGenerator) (i : Nat)
    (h0 : operation ≠ 0)
    (hex : ∃ k, i ≤ k ∧ ∃ hk : k < g.mRequestedOperations.length,
      g.mRequestedOperations[k] = operation) :
    scheduleOperationFrom operation g i = { g with deleted := g.deleted ++ [operation] } := by
  induction i using scheduleOperationFrom.induct operation g with
  | case1 i h s hs =>
    rw [scheduleOperationFrom]
    simp only [h, dite_true, s] at hs ⊢
    rw [if_pos hs, destroy_eq]
    have hset : g.mRequestedOperations.set i operation = g.mRequestedOperations := by
      rw [← hs.2]
      exact set_same_entry g.mRequestedOperations i h
    rw [hset, hs.2]
    simp [jobsOf, h0]
  | case2 i h s hs ih =>
    rw [scheduleOperationFrom]
    simp only [h, dite_true, s, hs, if_false] at ih ⊢
    apply ih
    obtain ⟨k, hik, hk, hkeq⟩ := hex
    refine ⟨k, ?_, hk, hkeq⟩
    rcases Nat.eq_or_lt_of_le hik with heq | hlt
    · exfalso
      subst heq
      have hnz : g.mRequestedOperations[i] ≠ 0 := by
        rw [hkeq]
        exact h0
      exact hs ⟨hnz, hkeq⟩
    · exact hlt
  | case3 i h =>
    obtain ⟨k, hik, hk, -⟩ := hex
    omega

theorem scheduleOperation_absent (operation : OpPtr) (g : TexturesGenerator)
    (h : operation = 0 ∨ operation ∉ g.mRequestedOperations) :
    scheduleOperation operation g =
      { g with mRequestedOperations := g.mRequestedOperations ++ [operation],
               newRequestSignals := g.newRequestSignals + 1 } := by
  unfold scheduleOperation
  apply scheduleOperationFrom_absent
  intro k _ hk hcontra
  rcases h with h | h
  · exact hcontra.1 (hcontra.2.trans h)
  · exact h (hcontra.2 ▸ List.getElem_mem hk)

theorem scheduleOperation_present (operation : OpPtr) (g : TexturesGenerator)
    (h0 : operation ≠ 0) (hmem : operation ∈ g.mRequestedOperations) :
    scheduleOperation operation g = { g with deleted := g.deleted ++ [operation] } := by
  unfold scheduleOperation
  apply scheduleOperationFrom_present operation g 0 h0
  obtain ⟨k, hk, hkeq⟩ := List.getElem_of_mem hmem
  exact ⟨k, Nat.zero_le k, hk, hkeq⟩

theorem jobsOf_cons (a : OpPtr) (t : List OpPtr) : jobsOf (a :: t) = jobsOf [a] ++ jobsOf t := by
  unfold jobsOf
  by_cases ha : a = 0 <;> simp [List.filter_cons, ha]

theorem threadLoopIteration_cons (g : TexturesGenerator) (a : OpPtr) (t : List OpPtr)
    (hq : g.mRequestedOperations = a :: t) :
    threadLoopIteration g =
      ({ g with
          mRequestedOperations := t,
          m_currentOperation := 0,
          ran := g.ran ++ jobsOf [a],
          deleted := g.deleted ++ jobsOf [a],
          completionSignals :=
            g.completionSignals + (jobsOf [a]).length + (if g.m_waitForCompletion then 1 else 0) },
        decide (t.length = 0)) := by
  unfold threadLoopIteration threadLoopFinish threadLoopRun threadLoopPop
  rw [hq]
  by_cases ha : a = 0 <;> cases hw : g.m_waitForCompletion <;>
    simp [ha, hw, jobsOf, destroy]

theorem threadLoopIteration_nil (g : TexturesGenerator)
    (hq : g.mRequestedOperations = []) (hc : g.m_currentOperation = 0) :
    threadLoopIteration g =
      ({ g with
          completionSignals := g.completionSignals + (if g.m_waitForCompletion then 1 else 0) },
        true) := by
  unfold threadLoopIteration threadLoopFinish threadLoopRun threadLoopPop
  rw [hq]
  cases g
  simp only at hq hc
  subst hq hc
  split_ifs <;> simp_all

theorem threadLoopWhile_cons (t : List OpPtr) :
    ∀ (a : OpPtr) (g : TexturesGenerator), g.mRequestedOperations = a :: t →
      threadLoopWhile g =
        ({ g with
            mRequestedOperations := [],
            m_currentOperation := 0,
            ran := g.ran ++ jobsOf (a :: t),
            deleted := g.deleted ++ jobsOf (a :: t),
            completionSignals :=
              g.completionSignals + (jobsOf (a :: t)).length
                + (if g.m_waitForCompletion then t.length + 1 else 0) },
          t.length + 1) := by
  induction t with
  | nil =>
    intro a g hq
    rw [threadLoopWhile]
    simp only [threadLoopIteration_cons g a [] hq]
    simp
  | cons b t ih =>
    intro a g hq
    rw [threadLoopWhile]
    simp only [threadLoopIteration_cons g a (b :: t) hq]
    simp only [List.length_cons, Nat.add_one_ne_zero, decide_False, Bool.false_eq_true,
      dite_false]
    rw [ih b _ rfl]
    rw [jobsOf_cons a (b :: t)]
    simp only [List.append_assoc, List.length_append, Prod.mk.injEq, TexturesGenerator.mk.injEq,
      true_and, and_true]
    cases hw : g.m_waitForCompletion
    · simp only [Bool.false_eq_true, if_false]
      omega
    · simp only [if_true]
      omega

theorem threadLoopDrain_eq (g : TexturesGenerator) :
    threadLoopDrain g =
      ({ g with
          mRequestedOperations := [],
          m_currentOperation := 0,
          ran := g.ran ++ jobsOf g.mRequestedOperations,
          deleted := g.deleted ++ jobsOf g.mRequestedOperations,
          completionSignals :=
            g.completionSignals + (jobsOf g.mRequestedOperations).length
              + (if g.m_waitForCompletion then max g.mRequestedOperations.length 1 else 0) },
        max g.mRequestedOperations.length 1) := by
  unfold threadLoopDrain
  cases hq : g.mRequestedOperations with
  | nil =>
    rw [threadLoopWhile, threadLoopIteration_nil _ rfl rfl]
    simp [jobsOf]
  | cons a t =>
    rw [threadLoopWhile_cons t a _ rfl]
    simp

theorem removeOperationsLocked_queue (filter : OperationFilter) (g : TexturesGenerator) :
    (removeOperationsLocked filter g).mRequestedOperations
      = g.mRequestedOperations.filter (fun p => !filter p) := by
  unfold removeOperationsLocked
  simp only [removeLoop_eq]
  split_ifs <;> simp

theorem removeOperationsLocked_current (filter : OperationFilter) (g : TexturesGenerator) :
    (removeOperationsLocked filter g).m_currentOperation = g.m_currentOperation := by
  unfold removeOperationsLocked
  simp only [removeLoop_eq]
  split_ifs <;> rfl

theorem removeOperationsLocked_ran (filter : OperationFilter) (g : TexturesGenerator) :
    (removeOperationsLocked filter g).ran = g.ran := by
  unfold removeOperationsLocked
  simp only [removeLoop_eq]
  split_ifs <;> rfl

theorem removeOperationsLocked_flag (filter : OperationFilter) (g : TexturesGenerator) :
    (removeOperationsLocked filter g).m_waitForCompletion
      = (g.m_waitForCompletion
          || (decide (g.m_currentOperation ≠ 0) && filter g.m_currentOperation)) := by
  unfold removeOperationsLocked
  simp only [removeLoop_eq]
  split_ifs with h1 h2 <;> simp_all

theorem scheduleAll_fresh (js : List OpPtr) :
    ∀ g : TexturesGenerator, js.Nodup → (∀ j ∈ js, j ∉ g.mRequestedOperations) →
      scheduleAll js g =
        { g with mRequestedOperations := g.mRequestedOperations ++ js,
                 newRequestSignals := g.newRequestSignals + js.length } := by
  induction js with
  | nil =>
    intro g _ _
    simp [scheduleAll]
  | cons j js ih =>
    intro g hnd hfresh
    have hj : j ∉ g.mRequestedOperations := hfresh j (List.mem_cons_self j js)
    rw [List.nodup_cons] at hnd
    have hstep : scheduleAll (j :: js) g = scheduleAll js (scheduleOperation j g) := rfl
    rw [hstep, scheduleOperation_absent j g (Or.inr hj), ih _ hnd.2]
    · simp [Nat.add_assoc, Nat.add_comm 1]
    · intro k hk hmem
      simp only [List.mem_append, List.mem_singleton] at hmem
      rcases hmem with hmem | hmem
      · exact hfresh k (List.mem_cons_of_mem j hk) hmem
      · exact hnd.1 (hmem ▸ hk)

theorem mem_jobsOf {p : OpPtr} {ops : List OpPtr} : p ∈ jobsOf ops ↔ p ∈ ops ∧ p ≠ 0 := by
  simp [jobsOf]

/-! ## Cancellation of queued jobs -/

/-- C8: the removal loop of `removeOperationsForFilter(filter)` (lines 89-97) leaves
exactly the entries of the queue on which `filter->check` is false, in their
original order; it is a total function (the loop terminates) and it has called
`filter->check` on each entry of the original queue once, in queue order.  The
jobs it destroyed are the matching ones, and nothing else of the state changes. -/
theorem removeLoop_is_filter (filter : OperationFilter) (g : TexturesGenerator) :
    (removeLoop filter g 0).mRequestedOperations
        = g.mRequestedOperations.filter (fun p => !filter p)
      ∧ (removeLoop filter g 0).checked = g.checked ++ g.mRequestedOperations
      ∧ (removeLoop filter g 0).deleted
          = g.deleted ++ jobsOf (g.mRequestedOperations.filter filter)
      ∧ (removeLoop filter g 0).m_currentOperation = g.m_currentOperation
      ∧ (removeLoop filter g 0).m_waitForCompletion = g.m_waitForCompletion
      ∧ (removeLoop filter g 0).ran = g.ran := by
  rw [removeLoop_eq]
  simp

/-- C2: once `removeOperationsForFilter(filter)` has run its locked section
(lines 88-103), no entry left in the queue satisfies `filter->check`.  A full
drain by the worker started afterwards (lines 146-176, nothing scheduled in
between) empties the queue and calls `run()` only on jobs on which
`filter->check` is false; the cancellation itself runs nothing. -/
theorem cancelled_jobs_never_run (filter : OperationFilter) (g : TexturesGenerator) :
    (∀ p ∈ (removeOperationsLocked filter g).mRequestedOperations, filter p = false)
      ∧ (removeOperationsLocked filter g).ran = g.ran
      ∧ (threadLoopDrain (removeOperationsLocked filter g)).1.mRequestedOperations = []
      ∧ ∃ extra : List OpPtr,
          (threadLoopDrain (removeOperationsLocked filter g)).1.ran = g.ran ++ extra
            ∧ ∀ p ∈ extra, filter p = false := by
  refine ⟨?_, removeOperationsLocked_ran filter g, ?_, ?_⟩
  · intro p hp
    rw [removeOperationsLocked_queue, List.mem_filter] at hp
    simpa using hp.2
  · rw [threadLoopDrain_eq]
  · refine ⟨jobsOf (removeOperationsLocked filter g).mRequestedOperations, ?_, ?_⟩
    · rw [threadLoopDrain_eq, removeOperationsLocked_ran]
    · intro p hp
      rw [mem_jobsOf, removeOperationsLocked_queue, List.mem_filter] at hp
      simpa using hp.1.2

/-! ## First in, first out -/

/-- C4: jobs (non-null pointers) with pairwise distinct coalescing keys, scheduled
in order on an empty queue, are queued in that order, and the worker's drain
(lines 146-176, nothing else in between) calls `run()` on exactly these jobs in
that order and leaves the queue empty. -/
theorem fifo_of_distinct_keys (key : OpPtr → Nat) (js : List OpPtr) (g : TexturesGenerator)
    (hempty : g.mRequestedOperations = [])
    (hjobs : ∀ j ∈ js, j ≠ 0)
    (hkeys : js.Pairwise (fun a b => key a ≠ key b)) :
    (scheduleAll js g).mRequestedOperations = js
      ∧ (threadLoopDrain (scheduleAll js g)).1.ran = g.ran ++ js
      ∧ (threadLoopDrain (scheduleAll js g)).1.mRequestedOperations = [] := by
  have hnd : js.Nodup := hkeys.imp (fun hab heq => hab (congrArg key heq))
  have hfresh : ∀ j ∈ js, j ∉ g.mRequestedOperations := by
    intro j _
    rw [hempty]
    exact List.not_mem_nil j
  have hjs : jobsOf js = js := by
    unfold jobsOf
    rw [List.filter_eq_self]
    intro j hj
    simpa using hjobs j hj
  rw [scheduleAll_fresh js g hnd hfresh, threadLoopDrain_eq]
  simp [hempty, hjs]

/-- C4, at three jobs with keys 10, 20, 30: they run in the order scheduled. -/
theorem fifo_of_distinct_keys_witness :
    (scheduleAll [1, 2, 3] TexturesGenerator.initial).mRequestedOperations = [1, 2, 3]
      ∧ (threadLoopDrain (scheduleAll [1, 2, 3] TexturesGenerator.initial)).1.ran
          = TexturesGenerator.initial.ran ++ [1, 2, 3]
      ∧ (threadLoopDrain (scheduleAll [1, 2, 3] TexturesGenerator.initial)).1.mRequestedOperations
          = [] :=
  fifo_of_distinct_keys (fun p => 10 * p) [1, 2, 3] TexturesGenerator.initial rfl
    (by decide) (by decide)

/-! ## The finishing section -/

theorem threadLoopFinish_fields (g : TexturesGenerator) :
    (threadLoopFinish g).1.m_currentOperation = 0
      ∧ (threadLoopFinish g).1.mRequestedOperations = g.mRequestedOperations
      ∧ (threadLoopFinish g).1.m_waitForCompletion = g.m_waitForCompletion := by
  unfold threadLoopFinish
  by_cases hc : g.m_currentOperation = 0 <;> cases hw : g.m_waitForCompletion <;> simp [hc, hw]

/-! ## Drain safety -/

/-- With two callers: jobs 5 and 6 are scheduled and the worker pops job 5 and
goes to run it. -/
theorem callers_reach_painting_five :
    CallersReachable (fun p => p == 6) (fun p => p == 5)
      { gen := { TexturesGenerator.initial with
                  mRequestedOperations := [6], m_currentOperation := 5,
                  newRequestSignals := 2 },
        worker := WorkerPc.run, first := CancelPc.returned, second := CancelPc.returned } := by
  have h1 : ({ gen := { TexturesGenerator.initial with
                  mRequestedOperations := [5], newRequestSignals := 1 },
               worker := WorkerPc.reset, first := CancelPc.returned,
               second := CancelPc.returned } : Callers)
      = callersSchedule 5 { gen := TexturesGenerator.initial, worker := WorkerPc.idle,
                            first := CancelPc.returned, second := CancelPc.returned } := by
    unfold callersSchedule
    rw [scheduleOperation_absent 5 TexturesGenerator.initial (Or.inr (by decide))]
    rfl
  have h2 : ({ gen := { TexturesGenerator.initial with
                  mRequestedOperations := [5, 6], newRequestSignals := 2 },
               worker := WorkerPc.reset, first := CancelPc.returned,
               second := CancelPc.returned } : Callers)
      = callersSchedule 6
          { gen := { TexturesGenerator.initial with
                      mRequestedOperations := [5], newRequestSignals := 1 },
            worker := WorkerPc.reset, first := CancelPc.returned,
            second := CancelPc.returned } := by
    unfold callersSchedule
    rw [scheduleOperation_absent 6 _ (Or.inr (by decide))]
    rfl
  exact Relation.ReflTransGen.head
    (CallersNext.worker CancelPc.returned CancelPc.returned rfl)
    (Relation.ReflTransGen.head (CallersNext.schedule 5 h1)
      (Relation.ReflTransGen.head (CallersNext.schedule 6 h2)
        (Relation.ReflTransGen.head
          (CallersNext.worker CancelPc.returned CancelPc.returned rfl)
          (Relation.ReflTransGen.head
            (CallersNext.worker CancelPc.returned CancelPc.returned rfl)
            Relation.ReflTransGen.refl))))

/-- The run goes on: the second caller cancels job 5, which is being painted; its
locked section sets `m_waitForCompletion`, it tests the flag and blocks in the
wait of line 114. -/
theorem callers_reach_second_waiting :
    CallersReachable (fun p => p == 6) (fun p => p == 5)
      { gen := { TexturesGenerator.initial with
                  mRequestedOperations := [6], m_currentOperation := 5,
                  m_waitForCompletion := true, checked := [6, 5], newRequestSignals := 2 },
        worker := WorkerPc.run, first := CancelPc.returned, second := CancelPc.waiting } := by
  have hstart : secondStep (fun p => p == 5)
      { gen := { TexturesGenerator.initial with
                  mRequestedOperations := [6], m_currentOperation := 5,
                  newRequestSignals := 2 },
        worker := WorkerPc.run, first := CancelPc.returned, second := CancelPc.start }
      = some
        { gen := { TexturesGenerator.initial with
                    mRequestedOperations := [6], m_currentOperation := 5,
                    m_waitForCompletion := true, checked := [6, 5], newRequestSignals := 2 },
          worker := WorkerPc.run, first := CancelPc.returned, second := CancelPc.test } := by
    simp [secondStep, cancelStep, removeOperationsLocked, removeLoop_eq,
      TexturesGenerator.initial, jobsOf]
  exact Relation.ReflTransGen.tail
    (Relation.ReflTransGen.tail
      (Relation.ReflTransGen.tail
        (Relation.ReflTransGen.tail callers_reach_painting_five
          (CallersNext.callSecond rfl rfl))
        (CallersNext.second hstart))
      (CallersNext.second rfl))
    (CallersNext.second rfl)

/-- The run goes on: the worker runs job 5, finishes it and signals, which makes
the second caller runnable; the worker pops job 6 and goes to run it. -/
theorem callers_reach_painting_six :
    CallersReachable (fun p => p == 6) (fun p => p == 5)
      { gen := { TexturesGenerator.initial with
                  m_currentOperation := 6, m_waitForCompletion := true,
                  deleted := [5], ran := [5], checked := [6, 5],
                  newRequestSignals := 2, completionSignals := 2 },
        worker := WorkerPc.run, first := CancelPc.returned, second := CancelPc.woken } :=
  Relation.ReflTransGen.tail
    (Relation.ReflTransGen.tail
      (Relation.ReflTransGen.tail callers_reach_second_waiting
        (CallersNext.worker CancelPc.returned CancelPc.waiting rfl))
      (CallersNext.worker CancelPc.returned CancelPc.woken rfl))
    (CallersNext.worker CancelPc.returned CancelPc.woken rfl)

/-- The run goes on: the first caller cancels job 6, which is being painted; its
locked section sets `m_waitForCompletion` and releases the lock.  The second
caller then takes the lock back and clears the flag at line 115. -/
theorem callers_reach_flag_cleared :
    CallersReachable (fun p => p == 6) (fun p => p == 5)
      { gen := { TexturesGenerator.initial with
                  m_currentOperation := 6, m_waitForCompletion := false,
                  deleted := [5], ran := [5], checked := [6, 5, 6],
                  newRequestSignals := 2, completionSignals := 2 },
        worker := WorkerPc.run, first := CancelPc.test, second := CancelPc.returned } := by
  have hstart : firstStep (fun p => p == 6)
      { gen := { TexturesGenerator.initial with
                  m_currentOperation := 6, m_waitForCompletion := true,
                  deleted := [5], ran := [5], checked := [6, 5],
                  newRequestSignals := 2, completionSignals := 2 },
        worker := WorkerPc.run, first := CancelPc.start, second := CancelPc.woken }
      = some
        { gen := { TexturesGenerator.initial with
                    m_currentOperation := 6, m_waitForCompletion := true,
                    deleted := [5], ran := [5], checked := [6, 5, 6],
                    newRequestSignals := 2, completionSignals := 2 },
          worker := WorkerPc.run, first := CancelPc.test, second := CancelPc.woken } := by
    simp [firstStep, cancelStep, removeOperationsLocked, removeLoop_eq,
      TexturesGenerator.initial, jobsOf]
  exact Relation.ReflTransGen.tail
    (Relation.ReflTransGen.tail
      (Relation.ReflTransGen.tail callers_reach_painting_six
        (CallersNext.callFirst rfl rfl))
      (CallersNext.first hstart))
    (CallersNext.second rfl)

/-- C3 (the code departs from it): two threads call `removeOperationsForFilter`.
The second cancels job 5 while it is painted and waits; the worker finishes job
5, signals, and starts painting job 6.  The first caller cancels job 6: in the
state its call starts in, the slot holds job 6 and its filter selects it, and
run alone the call would set the flag and block at line 114.  But the second
caller, woken, clears the shared flag at line 115 before the first reaches line
106; the first caller reads the flag as false and returns at line 107, while job
6 is in the slot, the worker stands in `run()`, and `run()` was not yet called
on job 6. -/
theorem canceller_returns_while_job_runs :
    (removeOperationsForFilter (fun p => p == 6)
        { TexturesGenerator.initial with
          m_currentOperation := 6, m_waitForCompletion := true,
          deleted := [5], ran := [5], checked := [6, 5],
          newRequestSignals := 2, completionSignals := 2 }).2 = CancelOutcome.waiting
      ∧ CallersReachable (fun p => p == 6) (fun p => p == 5)
          { gen := { TexturesGenerator.initial with
                      m_currentOperation := 6, m_waitForCompletion := false,
                      deleted := [5], ran := [5], checked := [6, 5, 6],
                      newRequestSignals := 2, completionSignals := 2 },
            worker := WorkerPc.run, first := CancelPc.test, second := CancelPc.returned }
      ∧ firstStep (fun p => p == 6)
          { gen := { TexturesGenerator.initial with
                      m_currentOperation := 6, m_waitForCompletion := false,
                      deleted := [5], ran := [5], checked := [6, 5, 6],
                      newRequestSignals := 2, completionSignals := 2 },
            worker := WorkerPc.run, first := CancelPc.test, second := CancelPc.returned }
        = some
          { gen := { TexturesGenerator.initial with
                      m_currentOperation := 6, m_waitForCompletion := false,
                      deleted := [5], ran := [5], checked := [6, 5, 6],
                      newRequestSignals := 2, completionSignals := 2 },
            worker := WorkerPc.run, first := CancelPc.returned, second := CancelPc.returned }
      ∧ CallersReachable (fun p => p == 6) (fun p => p == 5)
          { gen := { TexturesGenerator.initial with
                      m_currentOperation := 6, m_waitForCompletion := false,
                      deleted := [5], ran := [5], checked := [6, 5, 6],
                      newRequestSignals := 2, completionSignals := 2 },
            worker := WorkerPc.run, first := CancelPc.returned, second := CancelPc.returned }
      ∧ (fun p : OpPtr => p == 6) 6 = true
      ∧ (6 : OpPtr) ∉ ([5] : List OpPtr) := by
  refine ⟨?_, callers_reach_flag_cleared, rfl,
    Relation.ReflTransGen.tail callers_reach_flag_cleared (CallersNext.first rfl),
    by decide, by decide⟩
  simp [removeOperationsForFilter, removeOperationsDecide, removeOperationsLocked,
    removeLoop_eq, TexturesGenerator.initial]

/-! ## Coalescing

Line 62 compares the address in the queue with the address submitted, so the
replacement branch is taken only when the very same object is submitted again. -/

/-- What `scheduleOperation` does implement: the reference definition for the
relation "same address", for every queue and every non-null job. -/
theorem scheduleOperation_reference_on_addresses (j : OpPtr) (g : TexturesGenerator)
    (hj : j ≠ 0) :
    (scheduleOperation j g).mRequestedOperations
      = scheduleReference (fun p => p) j g.mRequestedOperations := by
  have href : ∀ ops : List OpPtr,
      scheduleReference (fun p => p) j ops = if j ∈ ops then ops else ops ++ [j] := by
    intro ops
    induction ops with
    | nil => simp [scheduleReference]
    | cons a rest ih =>
      rw [scheduleReference]
      by_cases ha : a = j
      · simp [ha]
      · have hne : ¬ j = a := fun h => ha h.symm
        simp only [ha, if_false, ih, List.mem_cons, hne, false_or]
        split_ifs <;> simp
  rw [href]
  by_cases hmem : j ∈ g.mRequestedOperations
  · rw [scheduleOperation_present j g hj hmem, if_pos hmem]
  · rw [scheduleOperation_absent j g (Or.inr hmem), if_neg hmem]

/-- The jobs in the queue stay pairwise distinct as addresses under `scheduleOperation`. -/
theorem scheduleOperation_nodup (j : OpPtr) (g : TexturesGenerator)
    (hnd : (jobsOf g.mRequestedOperations).Nodup) :
    (jobsOf (scheduleOperation j g).mRequestedOperations).Nodup := by
  by_cases hcase : j ≠ 0 ∧ j ∈ g.mRequestedOperations
  · rw [scheduleOperation_present j g hcase.1 hcase.2]
    exact hnd
  · have habs : j = 0 ∨ j ∉ g.mRequestedOperations := by
      by_cases h0 : j = 0
      · exact Or.inl h0
      · exact Or.inr (fun hmem => hcase ⟨h0, hmem⟩)
    rw [scheduleOperation_absent j g habs]
    show (jobsOf (g.mRequestedOperations ++ [j])).Nodup
    unfold jobsOf at hnd ⊢
    rw [List.filter_append]
    by_cases h0 : j = 0
    · simpa [h0] using hnd
    · have hnot : j ∉ g.mRequestedOperations := habs.resolve_left h0
      have hsingle : List.filter (fun p => decide (p ≠ 0)) [j] = [j] := by simp [h0]
      rw [hsingle, List.nodup_append]
      refine ⟨hnd, List.nodup_singleton j, ?_⟩
      intro a ha hb
      rw [List.mem_singleton] at hb
      subst hb
      exact hnot (List.mem_filter.mp ha).1

/-- After any sequence of `scheduleOperation` calls from the empty queue, a full
drain calls `run()` at most once on each job. -/
theorem drain_runs_each_job_once (js : List OpPtr) :
    (threadLoopDrain (scheduleAll js TexturesGenerator.initial)).1.ran.Nodup := by
  have hall : ∀ (ks : List OpPtr) (g : TexturesGenerator),
      (jobsOf g.mRequestedOperations).Nodup →
        (jobsOf (scheduleAll ks g).mRequestedOperations).Nodup := by
    intro ks
    induction ks with
    | nil => exact fun g h => h
    | cons k ks ih => exact fun g h => ih (scheduleOperation k g) (scheduleOperation_nodup k g h)
  have hran : ∀ ks : List OpPtr, (scheduleAll ks TexturesGenerator.initial).ran = [] := by
    intro ks
    have hgen : ∀ (ks : List OpPtr) (g : TexturesGenerator), (scheduleAll ks g).ran = g.ran := by
      intro ks
      induction ks with
      | nil => exact fun g => rfl
      | cons k ks ih =>
        intro g
        show (scheduleAll ks (scheduleOperation k g)).ran = g.ran
        rw [ih]
        by_cases hcase : k ≠ 0 ∧ k ∈ g.mRequestedOperations
        · rw [scheduleOperation_present k g hcase.1 hcase.2]
        · have habs : k = 0 ∨ k ∉ g.mRequestedOperations := by
            by_cases h0 : k = 0
            · exact Or.inl h0
            · exact Or.inr (fun hmem => hcase ⟨h0, hmem⟩)
          rw [scheduleOperation_absent k g habs]
    exact hgen ks TexturesGenerator.initial
  rw [threadLoopDrain_eq]
  simp only [hran, List.nil_append]
  exact hall js TexturesGenerator.initial (by decide)

/-- The worker's pop and the removal loop keep a queue with one job per key so. -/
theorem onePerKey_pop_and_remove (key : OpPtr → Nat) (filter : OperationFilter)
    (g : TexturesGenerator) (h : OnePerKey key g.mRequestedOperations) :
    OnePerKey key (threadLoopPop g).mRequestedOperations
      ∧ OnePerKey key (removeLoop filter g 0).mRequestedOperations := by
  constructor
  · unfold threadLoopPop
    cases hq : g.mRequestedOperations with
    | nil =>
      simp only
      exact h
    | cons a rest =>
      simp only
      rw [hq] at h
      exact (List.pairwise_cons.mp h).2
  · rw [removeLoop_eq]
    simp only [List.take_zero, List.drop_zero, List.nil_append]
    exact List.Pairwise.sublist (List.filter_sublist g.mRequestedOperations) h

/-- C1 (the code departs from it): jobs 11 and 12 are distinct objects with the
same coalescing key (`p / 10`, here 1).  Scheduled in turn on the empty queue,
both stay queued, each having raised the new-work signal: the queue has two
entries with that key, not the single entry 12. -/
theorem equal_jobs_both_queued :
    (11 : OpPtr) / 10 = 12 / 10
      ∧ (scheduleAll [11, 12] TexturesGenerator.initial).mRequestedOperations = [11, 12]
      ∧ (scheduleAll [11, 12] TexturesGenerator.initial).deleted = []
      ∧ (scheduleAll [11, 12] TexturesGenerator.initial).newRequestSignals = 2 := by
  rw [scheduleAll_fresh [11, 12] TexturesGenerator.initial (by decide) (by decide)]
  decide

/-- C7 (the code departs from it): with the queue holding job 11 and job 12 of the
same coalescing key submitted, the reference definition replaces the entry in
place, while `scheduleOperation` appends. -/
theorem schedule_differs_from_reference :
    scheduleReference (fun p => p / 10) 12 [11] = [12]
      ∧ (scheduleOperation 12
          { TexturesGenerator.initial with mRequestedOperations := [11] }).mRequestedOperations
        = [11, 12] := by
  refine ⟨by decide, ?_⟩
  rw [scheduleOperation_absent 12 _ (Or.inr (by decide))]
  decide

/-- C9 (the code departs from it): the queue holding job 11 alone has one job per
coalescing key; after `scheduleOperation` of job 12, of the same key, it has two. -/
theorem schedule_breaks_one_per_key :
    OnePerKey (fun p => p / 10) [11]
      ∧ ¬ OnePerKey (fun p => p / 10)
          (scheduleOperation 12
            { TexturesGenerator.initial with mRequestedOperations := [11] }).mRequestedOperations := by
  rw [scheduleOperation_absent 12 _ (Or.inr (by decide))]
  decide

/-- C10 (the code departs from it): on the queue holding job 25, scheduling job 11
and then job 12 of the same coalescing key leaves three entries, while scheduling
job 12 alone leaves two: the second submission lengthens the queue. -/
theorem schedule_twice_not_idempotent :
    (scheduleAll [11, 12]
        { TexturesGenerator.initial with mRequestedOperations := [25] }).mRequestedOperations
      = [25, 11, 12]
      ∧ (scheduleOperation 12
          { TexturesGenerator.initial with mRequestedOperations := [25] }).mRequestedOperations
        = [25, 12] := by
  rw [scheduleAll_fresh [11, 12] _ (by decide) (by decide),
    scheduleOperation_absent 12 _ (Or.inr (by decide))]
  exact ⟨rfl, rfl⟩

/-- C6 (the code departs from it): job 7 is scheduled twice.  The second call takes
the replacement branch of lines 62-67, which deletes the replaced job, the same
object, and keeps its address in the queue; the drain then calls `run()` on the
job that was replaced and destroyed.  And of jobs 11 and 12, which share a
coalescing key (`p / 10`), the drain runs both, the older one included. -/
theorem replaced_job_is_run :
    (scheduleAll [7, 7] TexturesGenerator.initial).mRequestedOperations = [7]
      ∧ (scheduleAll [7, 7] TexturesGenerator.initial).deleted = [7]
      ∧ (threadLoopDrain (scheduleAll [7, 7] TexturesGenerator.initial)).1.ran = [7]
      ∧ (11 : OpPtr) / 10 = 12 / 10
      ∧ (threadLoopDrain (scheduleAll [11, 12] TexturesGenerator.initial)).1.ran
          = [11, 12] := by
  have h : scheduleAll [7, 7] TexturesGenerator.initial
      = { TexturesGenerator.initial with
          mRequestedOperations := [7], deleted := [7], newRequestSignals := 1 } := by
    show scheduleOperation 7 (scheduleOperation 7 TexturesGenerator.initial) = _
    rw [scheduleOperation_absent 7 TexturesGenerator.initial (Or.inr (by decide)),
      scheduleOperation_present 7 _ (by decide) (by decide)]
    rfl
  rw [h, scheduleAll_fresh [11, 12] TexturesGenerator.initial (by decide) (by decide),
    threadLoopDrain_eq, threadLoopDrain_eq]
  decide

/-! ## A cancellation that matches nothing -/

/-- A cancellation whose filter matches no queued job and not the current one,
entered with `m_waitForCompletion` false, leaves the queue, the slot and the flag
as they were and returns at line 107. -/
theorem cancel_nothing_returns (filter : OperationFilter) (g : TexturesGenerator)
    (hflag : g.m_waitForCompletion = false)
    (hqueue : ∀ p ∈ g.mRequestedOperations, filter p = false)
    (hcur : g.m_currentOperation = 0 ∨ filter g.m_currentOperation = false) :
    (removeOperationsForFilter filter g).1.mRequestedOperations = g.mRequestedOperations
      ∧ (removeOperationsForFilter filter g).1.m_currentOperation = g.m_currentOperation
      ∧ (removeOperationsForFilter filter g).1.m_waitForCompletion = false
      ∧ (removeOperationsForFilter filter g).2 = CancelOutcome.returned := by
  have hw : (removeOperationsLocked filter g).m_waitForCompletion = false := by
    rw [removeOperationsLocked_flag, hflag]
    rcases hcur with h | h <;> simp [h]
  refine ⟨?_, removeOperationsLocked_current filter g, hw, ?_⟩
  · show (removeOperationsLocked filter g).mRequestedOperations = _
    rw [removeOperationsLocked_queue, List.filter_eq_self]
    intro p hp
    simp [hqueue p hp]
  · simp only [removeOperationsForFilter, removeOperationsDecide, hw]
    rfl

/-- C5 (the code departs from it): the queue holds jobs 3 and 4, job 5 is current,
and `m_waitForCompletion` is already set.  A cancellation whose filter selects
nothing leaves queue and slot as they were, yet line 106 reads the flag as set
and the call goes on to block in the wait of line 114. -/
theorem cancel_nothing_blocks_on_set_flag :
    (removeOperationsForFilter (fun _ => false)
        { TexturesGenerator.initial with
          mRequestedOperations := [3, 4], m_currentOperation := 5,
          m_waitForCompletion := true }).1.mRequestedOperations = [3, 4]
      ∧ (removeOperationsForFilter (fun _ => false)
          { TexturesGenerator.initial with
            mRequestedOperations := [3, 4], m_currentOperation := 5,
            m_waitForCompletion := true }).1.m_currentOperation = 5
      ∧ (removeOperationsForFilter (fun _ => false)
          { TexturesGenerator.initial with
            mRequestedOperations := [3, 4], m_currentOperation := 5,
            m_waitForCompletion := true }).2 = CancelOutcome.waiting := by
  simp [removeOperationsForFilter, removeOperationsDecide, removeOperationsLocked,
    removeLoop_eq, TexturesGenerator.initial]

/-! ## What scheduling touches -/

theorem scheduleOperation_cases (j : OpPtr) (g : TexturesGenerator) :
    scheduleOperation j g =
      if j ≠ 0 ∧ j ∈ g.mRequestedOperations then { g with deleted := g.deleted ++ [j] }
      else { g with mRequestedOperations := g.mRequestedOperations ++ [j],
                    newRequestSignals := g.newRequestSignals + 1 } := by
  by_cases hcase : j ≠ 0 ∧ j ∈ g.mRequestedOperations
  · rw [if_pos hcase, scheduleOperation_present j g hcase.1 hcase.2]
  · rw [if_neg hcase]
    apply scheduleOperation_absent
    by_cases h0 : j = 0
    · exact Or.inl h0
    · exact Or.inr (fun hmem => hcase ⟨h0, hmem⟩)

theorem scheduleOperation_frame (j : OpPtr) (g : TexturesGenerator) :
    (scheduleOperation j g).m_currentOperation = g.m_currentOperation
      ∧ (scheduleOperation j g).m_waitForCompletion = g.m_waitForCompletion
      ∧ (scheduleOperation j g).ran = g.ran
      ∧ (scheduleOperation j g).checked = g.checked
      ∧ (scheduleOperation j g).completionSignals = g.completionSignals := by
  rw [scheduleOperation_cases]
  split_ifs <;> exact ⟨rfl, rfl, rfl, rfl, rfl⟩

/-- C15 as stated does not hold: job 7 is queued and is submitted again; the
replacement branch returns at line 66, before the signal of line 72, and the
new-work signal is not raised. -/
theorem schedule_replace_raises_no_signal :
    (scheduleOperation 7
        { TexturesGenerator.initial with mRequestedOperations := [7] }).newRequestSignals = 0
      ∧ ¬ (∀ (j : OpPtr) (g : TexturesGenerator),
            (scheduleOperation j g).newRequestSignals = g.newRequestSignals + 1) := by
  have h : (scheduleOperation 7
      { TexturesGenerator.initial with mRequestedOperations := [7] }).newRequestSignals = 0 := by
    rw [scheduleOperation_present 7 _ (by decide) (by decide)]
    rfl
  refine ⟨h, fun hall => ?_⟩
  have h1 := hall 7 { TexturesGenerator.initial with mRequestedOperations := [7] }
  rw [h] at h1
  exact absurd h1 (by decide)

/-- C15, amended: `scheduleOperation(j)` either appends `j` and raises the
new-work signal exactly once, or replaces a queued entry in place, leaving the
length of the queue as it was, and does not raise the signal. -/
theorem schedule_signals_on_append_only (j : OpPtr) (g : TexturesGenerator) :
    ((scheduleOperation j g).mRequestedOperations = g.mRequestedOperations ++ [j]
        ∧ (scheduleOperation j g).newRequestSignals = g.newRequestSignals + 1)
      ∨ ((scheduleOperation j g).mRequestedOperations.length = g.mRequestedOperations.length
        ∧ (scheduleOperation j g).mRequestedOperations ≠ g.mRequestedOperations ++ [j]
        ∧ (scheduleOperation j g).newRequestSignals = g.newRequestSignals) := by
  rw [scheduleOperation_cases]
  split_ifs with h
  · right
    refine ⟨rfl, ?_, rfl⟩
    intro heq
    have hlen := congrArg List.length heq
    simp at hlen
  · left
    exact ⟨rfl, rfl⟩

/-! ## The drain loop -/

/-- C16: run with no other thread in between, the loop of lines 146-176 on a queue
of length `n` is a total function that makes `max n 1` iterations, calls `run()`
on each job of the queue once, in queue order, destroys each of them, and leaves
the queue and the current-operation slot empty.  Every iteration ends with the
slot cleared, so a job is finished before the next one is popped. -/
theorem drain_terminates_and_empties (g : TexturesGenerator) :
    (threadLoopDrain g).2 = max g.mRequestedOperations.length 1
      ∧ (threadLoopDrain g).1.mRequestedOperations = []
      ∧ (threadLoopDrain g).1.m_currentOperation = 0
      ∧ (threadLoopDrain g).1.ran = g.ran ++ jobsOf g.mRequestedOperations
      ∧ (threadLoopDrain g).1.deleted = g.deleted ++ jobsOf g.mRequestedOperations
      ∧ ((∀ p ∈ g.mRequestedOperations, p ≠ 0) →
          (threadLoopDrain g).1.ran = g.ran ++ g.mRequestedOperations)
      ∧ (∀ h : TexturesGenerator, (threadLoopIteration h).1.m_currentOperation = 0)
      ∧ (∀ (h : TexturesGenerator) (a : OpPtr) (t : List OpPtr),
          h.mRequestedOperations = a :: t →
            (threadLoopIteration h).1.mRequestedOperations = t
              ∧ (threadLoopIteration h).1.ran = h.ran ++ jobsOf [a]
              ∧ (threadLoopIteration h).1.deleted = h.deleted ++ jobsOf [a]) := by
  rw [threadLoopDrain_eq]
  refine ⟨rfl, rfl, rfl, rfl, rfl, ?_, ?_, ?_⟩
  · intro hnn
    have hjobs : jobsOf g.mRequestedOperations = g.mRequestedOperations := by
      unfold jobsOf
      rw [List.filter_eq_self]
      intro p hp
      simpa using hnn p hp
    simp only [hjobs]
  · intro h
    exact (threadLoopFinish_fields _).1
  · intro h a t hq
    rw [threadLoopIteration_cons h a t hq]
    exact ⟨rfl, rfl, rfl⟩

/-! ## Destruction -/

/-- C17 (the code departs from it): job 7 is scheduled twice.  The replacement
branch of lines 62-67 destroys it and leaves its address in the queue: a destroyed
job is an entry of the queue.  The drain then pops it, runs it and destroys it a
second time. -/
theorem resubmitted_job_destroyed_twice :
    (scheduleAll [7, 7] TexturesGenerator.initial).mRequestedOperations = [7]
      ∧ (scheduleAll [7, 7] TexturesGenerator.initial).deleted = [7]
      ∧ (threadLoopPop (scheduleAll [7, 7] TexturesGenerator.initial)).m_currentOperation = 7
      ∧ (threadLoopDrain (scheduleAll [7, 7] TexturesGenerator.initial)).1.deleted = [7, 7] := by
  have h : scheduleAll [7, 7] TexturesGenerator.initial
      = { TexturesGenerator.initial with
          mRequestedOperations := [7], deleted := [7], newRequestSignals := 1 } := by
    show scheduleOperation 7 (scheduleOperation 7 TexturesGenerator.initial) = _
    rw [scheduleOperation_absent 7 TexturesGenerator.initial (Or.inr (by decide)),
      scheduleOperation_present 7 _ (by decide) (by decide)]
    rfl
  rw [h, threadLoopDrain_eq]
  decide

/-! ## Reachable states of the whole system -/

theorem reachable_invariant (allowed : TexturesGenerator → OpPtr → Prop) (P : System → Prop)
    (hinit : P System.initial) (hstep : ∀ s t, P s → Next allowed s t → P t)
    (s : System) (hreach : Reachable allowed s) : P s := by
  induction hreach with
  | refl => exact hinit
  | tail _ hn ih => exact hstep _ _ ih hn

theorem reachable_anyJob (allowed : TexturesGenerator → OpPtr → Prop) (s : System)
    (hreach : Reachable allowed s) : Reachable anyJob s := by
  induction hreach with
  | refl => exact Relation.ReflTransGen.refl
  | tail _ hn ih =>
    refine Relation.ReflTransGen.tail ih ?_
    cases hn with
    | worker h => exact Next.worker h
    | canceller filter h => exact Next.canceller filter h
    | call h ht => exact Next.call h ht
    | schedule j _ ht => exact Next.schedule j trivial ht

/-- A run from start-up: the worker finds the queue empty and waits, job 5 is
scheduled and wakes it, the worker clears the slot and stands before the pop. -/
theorem reachable_before_pop :
    Reachable notCurrent
      { gen := { TexturesGenerator.initial with
                  mRequestedOperations := [5], newRequestSignals := 1 },
        worker := WorkerPc.pop, canceller := CancelPc.returned } := by
  have hsched : ({ gen := { TexturesGenerator.initial with
                      mRequestedOperations := [5], newRequestSignals := 1 },
                   worker := WorkerPc.reset, canceller := CancelPc.returned } : System)
      = scheduleStep 5 { gen := TexturesGenerator.initial, worker := WorkerPc.idle,
                         canceller := CancelPc.returned } := by
    unfold scheduleStep
    rw [scheduleOperation_absent 5 TexturesGenerator.initial (Or.inr (by decide))]
    rfl
  exact Relation.ReflTransGen.head (Next.worker rfl)
    (Relation.ReflTransGen.head (Next.schedule 5 (Or.inr (by decide)) hsched)
      (Relation.ReflTransGen.head (Next.worker rfl) Relation.ReflTransGen.refl))

/-- The run goes on: the worker pops job 5 and stands before `run()`. -/
theorem reachable_painting :
    Reachable notCurrent
      { gen := { TexturesGenerator.initial with
                  m_currentOperation := 5, newRequestSignals := 1 },
        worker := WorkerPc.run, canceller := CancelPc.returned } :=
  Relation.ReflTransGen.tail reachable_before_pop (Next.worker rfl)

theorem slot_empty_outside_run (allowed : TexturesGenerator → OpPtr → Prop) (s : System)
    (hreach : Reachable allowed s) :
    s.worker = WorkerPc.run ∨ s.worker = WorkerPc.finish ∨ s.gen.m_currentOperation = 0 := by
  refine reachable_invariant allowed
    (fun s => s.worker = WorkerPc.run ∨ s.worker = WorkerPc.finish
      ∨ s.gen.m_currentOperation = 0) (Or.inr (Or.inr rfl)) ?_ s hreach
  intro s t hP hn
  simp only at hP ⊢
  cases hn with
  | worker h =>
    obtain ⟨g, w, c⟩ := s
    cases w
    case idle => simp [workerStep] at h
    case entry =>
      have hc : g.m_currentOperation = 0 := by
        rcases hP with hP | hP | hP
        · exact WorkerPc.noConfusion hP
        · exact WorkerPc.noConfusion hP
        · exact hP
      simp only [workerStep] at h
      split_ifs at h <;>
        (simp only [Option.some.injEq] at h; subst h; exact Or.inr (Or.inr hc))
    case reset =>
      simp only [workerStep, Option.some.injEq] at h
      subst h
      exact Or.inr (Or.inr rfl)
    case pop =>
      simp only [workerStep, Option.some.injEq] at h
      subst h
      exact Or.inl rfl
    case run =>
      simp only [workerStep, Option.some.injEq] at h
      subst h
      exact Or.inr (Or.inl rfl)
    case finish =>
      simp only [workerStep, Option.some.injEq] at h
      subst h
      exact Or.inr (Or.inr (threadLoopFinish_fields g).1)
  | canceller filter h =>
    obtain ⟨g, w, c⟩ := s
    cases c <;> simp only [cancelStep] at h
    case start =>
      simp only [Option.some.injEq] at h
      subst h
      simpa only [removeOperationsLocked_current] using hP
    case test =>
      split at h <;> (simp only [Option.some.injEq] at h; subst h; exact hP)
    case relock =>
      simp only [Option.some.injEq] at h
      subst h
      exact hP
    case woken =>
      simp only [Option.some.injEq] at h
      subst h
      exact hP
    case waiting => exact absurd h (by simp)
    case returned => exact absurd h (by simp)
  | call _ ht =>
    subst ht
    exact hP
  | schedule j _ ht =>
    subst ht
    simp only [scheduleStep, (scheduleOperation_frame j s.gen).1]
    rcases hP with hP | hP | hP
    · left
      simp [wakeWorker, hP]
    · right; left
      simp [wakeWorker, hP]
    · exact Or.inr (Or.inr hP)

/-! ## Pop-front -/

/-- C11: on a non-empty queue the pop of lines 150-157 puts the first entry in
the current-operation slot and leaves the rest of the queue, in order, touching
nothing else; on the empty queue it does nothing, `remove(0)` is not called, and
queue and slot stay empty.  The slot is indeed empty whenever the worker stands
before the pop, in every reachable state of the system. -/
theorem pop_front (g : TexturesGenerator) (a : OpPtr) (t : List OpPtr) (s : System)
    (hreach : Reachable anyJob s) (hpop : s.worker = WorkerPc.pop) :
    threadLoopPop { g with mRequestedOperations := a :: t }
        = { g with m_currentOperation := a, mRequestedOperations := t }
      ∧ threadLoopPop { g with mRequestedOperations := [], m_currentOperation := 0 }
        = { g with mRequestedOperations := [], m_currentOperation := 0 }
      ∧ s.gen.m_currentOperation = 0
      ∧ workerStep s = some { s with gen := threadLoopPop s.gen, worker := WorkerPc.run }
      ∧ (s.gen.mRequestedOperations = [] →
          (threadLoopPop s.gen).mRequestedOperations = []
            ∧ (threadLoopPop s.gen).m_currentOperation = 0) := by
  have hslot : s.gen.m_currentOperation = 0 := by
    rcases slot_empty_outside_run anyJob s hreach with h | h | h
    · rw [hpop] at h
      exact absurd h (by decide)
    · rw [hpop] at h
      exact absurd h (by decide)
    · exact h
  refine ⟨rfl, rfl, hslot, ?_, ?_⟩
  · obtain ⟨sg, w, c⟩ := s
    simp only at hpop
    subst hpop
    rfl
  · intro hq
    unfold threadLoopPop
    rw [hq]
    exact ⟨hq, hslot⟩

/-- C11, on a run: job 5 is queued and the worker stands before the pop. -/
theorem pop_front_witness :
    threadLoopPop { TexturesGenerator.initial with mRequestedOperations := 7 :: [8] }
        = { TexturesGenerator.initial with m_currentOperation := 7, mRequestedOperations := [8] }
      ∧ threadLoopPop
          { TexturesGenerator.initial with mRequestedOperations := [], m_currentOperation := 0 }
        = { TexturesGenerator.initial with mRequestedOperations := [], m_currentOperation := 0 }
      ∧ (0 : OpPtr) = 0
      ∧ workerStep
          { gen := { TexturesGenerator.initial with
                      mRequestedOperations := [5], newRequestSignals := 1 },
            worker := WorkerPc.pop, canceller := CancelPc.returned }
        = some
          { gen := { TexturesGenerator.initial with
                      m_currentOperation := 5, newRequestSignals := 1 },
            worker := WorkerPc.run, canceller := CancelPc.returned }
      ∧ (([5] : List OpPtr) = [] →
          (threadLoopPop { TexturesGenerator.initial with
              mRequestedOperations := [5], newRequestSignals := 1 }).mRequestedOperations = []
            ∧ (threadLoopPop { TexturesGenerator.initial with
                mRequestedOperations := [5], newRequestSignals := 1 }).m_currentOperation = 0) :=
  pop_front TexturesGenerator.initial 7 [8]
    { gen := { TexturesGenerator.initial with
                mRequestedOperations := [5], newRequestSignals := 1 },
      worker := WorkerPc.pop, canceller := CancelPc.returned }
    (reachable_anyJob notCurrent _ reachable_before_pop) rfl

/-! ## The queue and the current-operation slot -/

theorem exclusive_worker (s t : System)
    (hP : (jobsOf s.gen.mRequestedOperations).Nodup ∧ Exclusive s.gen)
    (h : workerStep s = some t) :
    (jobsOf t.gen.mRequestedOperations).Nodup ∧ Exclusive t.gen := by
  obtain ⟨g, w, c⟩ := s
  simp only at hP
  cases w
  case idle => simp [workerStep] at h
  case entry =>
    simp only [workerStep] at h
    split_ifs at h <;> (simp only [Option.some.injEq] at h; subst h; exact hP)
  case reset =>
    simp only [workerStep, Option.some.injEq] at h
    subst h
    exact ⟨hP.1, fun hne => absurd rfl hne⟩
  case pop =>
    simp only [workerStep, Option.some.injEq] at h
    subst h
    unfold threadLoopPop
    cases hq : g.mRequestedOperations with
    | nil =>
      simp only
      exact hP
    | cons a rest =>
      simp only
      have hnd := hP.1
      rw [hq, jobsOf_cons] at hnd
      refine ⟨(List.nodup_append.mp hnd).2.1, ?_⟩
      intro ha hmem
      have ha0 : a ≠ 0 := ha
      have h1 : a ∈ jobsOf [a] := mem_jobsOf.mpr ⟨List.mem_singleton.mpr rfl, ha0⟩
      have h2 : a ∈ jobsOf rest := mem_jobsOf.mpr ⟨hmem, ha0⟩
      exact (List.nodup_append.mp hnd).2.2 h1 h2
  case run =>
    simp only [workerStep, Option.some.injEq] at h
    subst h
    unfold threadLoopRun
    split_ifs <;> exact hP
  case finish =>
    simp only [workerStep, Option.some.injEq] at h
    subst h
    obtain ⟨f1, f2, -⟩ := threadLoopFinish_fields g
    refine ⟨?_, fun hne => absurd f1 hne⟩
    simp only [f2]
    exact hP.1

theorem exclusive_canceller (filter : OperationFilter) (s t : System)
    (hP : (jobsOf s.gen.mRequestedOperations).Nodup ∧ Exclusive s.gen)
    (h : cancelStep filter s = some t) :
    (jobsOf t.gen.mRequestedOperations).Nodup ∧ Exclusive t.gen := by
  obtain ⟨g, w, c⟩ := s
  simp only at hP
  cases c <;> simp only [cancelStep] at h
  case start =>
    simp only [Option.some.injEq] at h
    subst h
    refine ⟨?_, ?_⟩
    · simp only [removeOperationsLocked_queue]
      exact List.Nodup.sublist
        (List.Sublist.filter _ (List.filter_sublist g.mRequestedOperations)) hP.1
    · unfold Exclusive
      simp only [removeOperationsLocked_queue, removeOperationsLocked_current]
      intro hne hmem
      exact hP.2 hne (List.mem_filter.mp hmem).1
  case test =>
    split at h <;> (simp only [Option.some.injEq] at h; subst h; exact hP)
  case relock =>
    simp only [Option.some.injEq] at h
    subst h
    exact hP
  case woken =>
    simp only [Option.some.injEq] at h
    subst h
    exact hP
  case waiting => exact absurd h (by simp)
  case returned => exact absurd h (by simp)

theorem exclusive_schedule (j : OpPtr) (g : TexturesGenerator) (hallowed : notCurrent g j)
    (hP : (jobsOf g.mRequestedOperations).Nodup ∧ Exclusive g) :
    (jobsOf (scheduleOperation j g).mRequestedOperations).Nodup
      ∧ Exclusive (scheduleOperation j g) := by
  refine ⟨scheduleOperation_nodup j g hP.1, ?_⟩
  unfold Exclusive
  rw [(scheduleOperation_frame j g).1, scheduleOperation_cases]
  intro hne
  split_ifs with hcase
  · exact hP.2 hne
  · simp only [List.mem_append, List.mem_singleton, not_or]
    refine ⟨hP.2 hne, ?_⟩
    intro heq
    rcases hallowed with h0 | hj
    · exact hne (heq.trans h0)
    · exact hj heq.symm

/-- C12 as stated does not hold: job 5 is being painted when a producer submits
the same job again; the scan of lines 57-68 looks at the queue only, the job is
appended, and the slot's job is now an entry of the queue. -/
theorem resubmitting_current_breaks_exclusivity :
    Reachable anyJob
        { gen := { TexturesGenerator.initial with
                    mRequestedOperations := [5], m_currentOperation := 5,
                    newRequestSignals := 2 },
          worker := WorkerPc.run, canceller := CancelPc.returned }
      ∧ ¬ Exclusive
          { TexturesGenerator.initial with
            mRequestedOperations := [5], m_currentOperation := 5, newRequestSignals := 2 } := by
  constructor
  · refine Relation.ReflTransGen.tail (reachable_anyJob notCurrent _ reachable_painting)
      (Next.schedule 5 trivial ?_)
    unfold scheduleStep
    rw [scheduleOperation_absent 5 _ (Or.inr (by decide))]
    rfl
  · intro h
    exact h (by decide) (by decide)

/-- C12, amended: as long as no producer submits the job that is in the
current-operation slot, in every state reachable from start-up by steps of
`scheduleOperation`, of `removeOperationsForFilter` and of the worker, the job in
the slot is not an entry of the queue, and the jobs of the queue are pairwise
distinct.  The slot is a single pointer: it holds one job or none. -/
theorem slot_job_not_queued (s : System) (hreach : Reachable notCurrent s) :
    Exclusive s.gen ∧ (jobsOf s.gen.mRequestedOperations).Nodup := by
  have hinv : (jobsOf s.gen.mRequestedOperations).Nodup ∧ Exclusive s.gen := by
    refine reachable_invariant notCurrent
      (fun s => (jobsOf s.gen.mRequestedOperations).Nodup ∧ Exclusive s.gen) ?_ ?_ s hreach
    · exact ⟨by decide, fun hne => absurd rfl hne⟩
    · intro s t hP hn
      cases hn with
      | worker h => exact exclusive_worker s t hP h
      | canceller filter h => exact exclusive_canceller filter s t hP h
      | call _ ht =>
        subst ht
        exact hP
      | schedule j hallowed ht =>
        subst ht
        exact exclusive_schedule j s.gen hallowed hP
  exact ⟨hinv.2, hinv.1⟩

/-- C12, amended, on a run: job 5 is being painted and job 6 is scheduled. -/
theorem slot_job_not_queued_witness :
    Exclusive
        { TexturesGenerator.initial with
          mRequestedOperations := [6], m_currentOperation := 5, newRequestSignals := 2 }
      ∧ (jobsOf [6]).Nodup :=
  slot_job_not_queued
    { gen := { TexturesGenerator.initial with
                mRequestedOperations := [6], m_currentOperation := 5, newRequestSignals := 2 },
      worker := WorkerPc.run, canceller := CancelPc.returned }
    (Relation.ReflTransGen.tail reachable_painting
      (Next.schedule 6 (Or.inr (by decide))
        (by
          unfold scheduleStep
          rw [scheduleOperation_absent 6 _ (Or.inr (by decide))]
          rfl)))

/-! ## The wait of the canceller -/

/-- The run goes on from job 5 being painted: a cancellation selecting job 5 is
called and runs its locked section, which sets `m_waitForCompletion`. -/
theorem reachable_flag_set :
    Reachable notCurrent
      { gen := { TexturesGenerator.initial with
                  m_currentOperation := 5, m_waitForCompletion := true, checked := [5],
                  newRequestSignals := 1 },
        worker := WorkerPc.run, canceller := CancelPc.test } := by
  have hstart : cancelStep (fun p => p == 5)
      { gen := { TexturesGenerator.initial with
                  m_currentOperation := 5, newRequestSignals := 1 },
        worker := WorkerPc.run, canceller := CancelPc.start }
      = some
        { gen := { TexturesGenerator.initial with
                    m_currentOperation := 5, m_waitForCompletion := true, checked := [5],
                    newRequestSignals := 1 },
          worker := WorkerPc.run, canceller := CancelPc.test } := by
    simp [cancelStep, removeOperationsLocked, removeLoop_eq, TexturesGenerator.initial, jobsOf]
  exact Relation.ReflTransGen.tail
    (Relation.ReflTransGen.tail reachable_painting (Next.call rfl rfl))
    (Next.canceller (fun p => p == 5) hstart)

/-- The run goes on: the worker runs job 5, finishes it and signals while the
canceller has not yet reached the wait, finds the queue empty and goes to wait
for new work; the canceller then tests the flag, finds it set, and waits. -/
theorem reachable_stranded :
    Reachable notCurrent
      { gen := { TexturesGenerator.initial with
                  m_waitForCompletion := true, deleted := [5], ran := [5], checked := [5],
                  newRequestSignals := 1, completionSignals := 2 },
        worker := WorkerPc.idle, canceller := CancelPc.waiting } :=
  Relation.ReflTransGen.tail
    (Relation.ReflTransGen.tail
      (Relation.ReflTransGen.tail
        (Relation.ReflTransGen.tail
          (Relation.ReflTransGen.tail reachable_flag_set (Next.worker rfl))
          (Next.worker rfl))
        (Next.worker rfl))
      (Next.canceller (fun p => p == 5) rfl))
    (Next.canceller (fun p => p == 5) rfl)

/-- C13 (the code departs from it): the run above, in which no producer submits
anything but job 5 once, ends with the canceller blocked in the wait of line 114
while the slot is empty, the queue is empty and the worker is blocked waiting for
new work.  Neither thread can take a step: the signals of lines 169 and 174 were
raised before the canceller began to wait. -/
theorem canceller_stranded :
    Reachable notCurrent
        { gen := { TexturesGenerator.initial with
                    m_waitForCompletion := true, deleted := [5], ran := [5], checked := [5],
                    newRequestSignals := 1, completionSignals := 2 },
          worker := WorkerPc.idle, canceller := CancelPc.waiting }
      ∧ Stranded
          { gen := { TexturesGenerator.initial with
                      m_waitForCompletion := true, deleted := [5], ran := [5], checked := [5],
                      newRequestSignals := 1, completionSignals := 2 },
            worker := WorkerPc.idle, canceller := CancelPc.waiting }
      ∧ workerStep
          { gen := { TexturesGenerator.initial with
                      m_waitForCompletion := true, deleted := [5], ran := [5], checked := [5],
                      newRequestSignals := 1, completionSignals := 2 },
            worker := WorkerPc.idle, canceller := CancelPc.waiting } = none
      ∧ ∀ filter : OperationFilter,
          cancelStep filter
            { gen := { TexturesGenerator.initial with
                        m_waitForCompletion := true, deleted := [5], ran := [5], checked := [5],
                        newRequestSignals := 1, completionSignals := 2 },
              worker := WorkerPc.idle, canceller := CancelPc.waiting } = none :=
  ⟨reachable_stranded, ⟨rfl, rfl, rfl, rfl⟩, rfl, fun _ => rfl⟩

/-! ## Who clears the flag -/

theorem worker_keeps_flag (g : TexturesGenerator) :
    (threadLoopPop g).m_waitForCompletion = g.m_waitForCompletion
      ∧ (threadLoopRun g).m_waitForCompletion = g.m_waitForCompletion
      ∧ (threadLoopFinish g).1.m_waitForCompletion = g.m_waitForCompletion := by
  refine ⟨?_, ?_, (threadLoopFinish_fields g).2.2⟩
  · unfold threadLoopPop
    cases g.mRequestedOperations <;> rfl
  · unfold threadLoopRun
    split_ifs <;> rfl

theorem flag_worker (s t : System)
    (hP : s.gen.m_waitForCompletion = true → InDrainWait s.canceller)
    (h : workerStep s = some t) :
    t.gen.m_waitForCompletion = true → InDrainWait t.canceller := by
  obtain ⟨g, w, c⟩ := s
  simp only at hP
  cases w
  case idle => simp [workerStep] at h
  case entry =>
    simp only [workerStep] at h
    split_ifs at h <;> (simp only [Option.some.injEq] at h; subst h; exact hP)
  case reset =>
    simp only [workerStep, Option.some.injEq] at h
    subst h
    exact hP
  case pop =>
    simp only [workerStep, Option.some.injEq] at h
    subst h
    simp only [(worker_keeps_flag g).1]
    exact hP
  case run =>
    simp only [workerStep, Option.some.injEq] at h
    subst h
    simp only [(worker_keeps_flag g).2.1]
    exact hP
  case finish =>
    simp only [workerStep, Option.some.injEq] at h
    subst h
    simp only [(worker_keeps_flag g).2.2]
    intro hflag
    have hc := hP hflag
    unfold wake
    split_ifs
    · exact Or.inr (Or.inr (Or.inr rfl))
    · exact hc

theorem flag_canceller (filter : OperationFilter) (s t : System)
    (h : cancelStep filter s = some t) :
    t.gen.m_waitForCompletion = true → InDrainWait t.canceller := by
  obtain ⟨g, w, c⟩ := s
  cases c <;> simp only [cancelStep] at h
  case start =>
    simp only [Option.some.injEq] at h
    subst h
    exact fun _ => Or.inl rfl
  case test =>
    simp only [removeOperationsDecide] at h
    cases hw : g.m_waitForCompletion
    · simp only [hw, Bool.not_false, if_true, Option.some.injEq] at h
      subst h
      intro hflag
      simp only at hflag
      rw [hw] at hflag
      exact absurd hflag (by decide)
    · simp only [hw, Bool.not_true, Bool.false_eq_true, if_false, Option.some.injEq] at h
      subst h
      exact fun _ => Or.inr (Or.inl rfl)
  case relock =>
    simp only [Option.some.injEq] at h
    subst h
    exact fun _ => Or.inr (Or.inr (Or.inl rfl))
  case woken =>
    simp only [Option.some.injEq] at h
    subst h
    intro hflag
    exact absurd hflag (by simp [removeOperationsWoken])
  case waiting => exact absurd h (by simp)
  case returned => exact absurd h (by simp)

/-- C14 as stated does not hold: with job 5 current and `m_waitForCompletion` set,
the worker runs the job, finishes it and raises the signal twice (lines 169 and
174), and the flag is still set.  And in a reachable state the flag is set while
the canceller stands at line 106, not blocked. -/
theorem worker_leaves_flag_set :
    (threadLoopFinish (threadLoopRun
        { TexturesGenerator.initial with
          m_currentOperation := 5, m_waitForCompletion := true })).1
      = { TexturesGenerator.initial with
          m_waitForCompletion := true, deleted := [5], ran := [5], completionSignals := 2 }
      ∧ Reachable anyJob
          { gen := { TexturesGenerator.initial with
                      m_currentOperation := 5, m_waitForCompletion := true, checked := [5],
                      newRequestSignals := 1 },
            worker := WorkerPc.run, canceller := CancelPc.test } :=
  ⟨by decide, reachable_anyJob notCurrent _ reachable_flag_set⟩

/-- C14, amended: no section of the worker's iteration changes
`m_waitForCompletion`; the canceller clears it at line 115, once woken; and in
every reachable state the flag is set only while the canceller is between line
101, where it set the flag, and line 115: about to wait, waiting, or woken. -/
theorem flag_cleared_by_canceller (s : System) (hreach : Reachable anyJob s) :
    (∀ g : TexturesGenerator,
        (threadLoopIteration g).1.m_waitForCompletion = g.m_waitForCompletion)
      ∧ (∀ g : TexturesGenerator, (removeOperationsWoken g).m_waitForCompletion = false)
      ∧ (s.gen.m_waitForCompletion = true → InDrainWait s.canceller) := by
  refine ⟨?_, fun _ => rfl, ?_⟩
  · intro g
    unfold threadLoopIteration
    rw [(worker_keeps_flag _).2.2, (worker_keeps_flag _).2.1, (worker_keeps_flag _).1]
  · refine reachable_invariant anyJob
      (fun s => s.gen.m_waitForCompletion = true → InDrainWait s.canceller) ?_ ?_ s hreach
    · intro h
      exact absurd h (by decide)
    · intro s t hP hn
      cases hn with
      | worker h => exact flag_worker s t hP h
      | canceller filter h => exact flag_canceller filter s t h
      | call hret ht =>
        subst ht
        intro hflag
        have hc := hP hflag
        rw [hret] at hc
        rcases hc with hc | hc | hc | hc <;> exact CancelPc.noConfusion hc
      | schedule j _ ht =>
        subst ht
        simp only [scheduleStep, (scheduleOperation_frame j s.gen).2.1]
        exact hP

/-- C14, amended, on a run: the canceller has set the flag and stands at line 106. -/
theorem flag_cleared_by_canceller_witness :
    (∀ g : TexturesGenerator,
        (threadLoopIteration g).1.m_waitForCompletion = g.m_waitForCompletion)
      ∧ (∀ g : TexturesGenerator, (removeOperationsWoken g).m_waitForCompletion = false)
      ∧ (true = true → InDrainWait CancelPc.test) :=
  flag_cleared_by_canceller
    { gen := { TexturesGenerator.initial with
                m_currentOperation := 5, m_waitForCompletion := true, checked := [5],
                newRequestSignals := 1 },
      worker := WorkerPc.run, canceller := CancelPc.test }
    (reachable_anyJob notCurrent _ reachable_flag_set)

/-! ## Destruction when every job is submitted once -/

theorem removeOperationsLocked_deleted (filter : OperationFilter) (g : TexturesGenerator) :
    (removeOperationsLocked filter g).deleted
      = g.deleted ++ jobsOf (g.mRequestedOperations.filter filter) := by
  unfold removeOperationsLocked
  simp only [removeLoop_eq]
  split_ifs <;> simp

theorem threadLoopFinish_deleted (g : TexturesGenerator) :
    (threadLoopFinish g).1.deleted = g.deleted ++ jobsOf [g.m_currentOperation] := by
  unfold threadLoopFinish
  by_cases hc : g.m_currentOperation = 0 <;> cases hw : g.m_waitForCompletion <;>
    simp [hc, hw, destroy, jobsOf]

theorem destroyedOnce_worker (s t : System)
    (hP : ((jobsOf s.gen.mRequestedOperations).Nodup ∧ Exclusive s.gen) ∧ DestroyedOnce s.gen)
    (h : workerStep s = some t) : DestroyedOnce t.gen := by
  obtain ⟨g, w, c⟩ := s
  obtain ⟨⟨-, hex⟩, hnd, hdel⟩ := hP
  simp only at hex hnd hdel
  cases w
  case idle => simp [workerStep] at h
  case entry =>
    simp only [workerStep] at h
    split_ifs at h <;> (simp only [Option.some.injEq] at h; subst h; exact ⟨hnd, hdel⟩)
  case reset =>
    simp only [workerStep, Option.some.injEq] at h
    subst h
    exact ⟨hnd, fun p hp => ⟨(hdel p hp).1, (hdel p hp).2.1, (hdel p hp).1⟩⟩
  case pop =>
    simp only [workerStep, Option.some.injEq] at h
    subst h
    unfold threadLoopPop
    cases hq : g.mRequestedOperations with
    | nil =>
      simp only
      exact ⟨hnd, fun p hp => ⟨(hdel p hp).1, hq ▸ (hdel p hp).2.1, (hdel p hp).2.2⟩⟩
    | cons a rest =>
      simp only
      refine ⟨hnd, fun p hp => ?_⟩
      have hp2 := (hdel p hp).2.1
      rw [hq] at hp2
      exact ⟨(hdel p hp).1, fun hmem => hp2 (List.mem_cons_of_mem a hmem),
        fun heq => hp2 (heq ▸ List.mem_cons_self a rest)⟩
  case run =>
    simp only [workerStep, Option.some.injEq] at h
    subst h
    unfold threadLoopRun
    split_ifs <;> exact ⟨hnd, hdel⟩
  case finish =>
    simp only [workerStep, Option.some.injEq] at h
    subst h
    obtain ⟨f1, f2, -⟩ := threadLoopFinish_fields g
    unfold DestroyedOnce
    simp only [f1, f2, threadLoopFinish_deleted]
    by_cases hc : g.m_currentOperation = 0
    · simp only [hc, jobsOf, List.filter_cons, ne_eq, not_true_eq_false, decide_False,
        Bool.false_eq_true, if_false, List.filter_nil, List.append_nil]
      exact ⟨hnd, fun p hp => ⟨(hdel p hp).1, (hdel p hp).2.1, (hdel p hp).1⟩⟩
    · have hj : jobsOf [g.m_currentOperation] = [g.m_currentOperation] := by
        simp [jobsOf, hc]
      rw [hj]
      refine ⟨?_, ?_⟩
      · rw [List.nodup_append]
        refine ⟨hnd, List.nodup_singleton _, ?_⟩
        intro a ha hb
        rw [List.mem_singleton] at hb
        exact (hdel a ha).2.2 hb
      · intro p hp
        rw [List.mem_append, List.mem_singleton] at hp
        rcases hp with hp | hp
        · exact ⟨(hdel p hp).1, (hdel p hp).2.1, (hdel p hp).1⟩
        · subst hp
          exact ⟨hc, hex hc, hc⟩

theorem destroyedOnce_canceller (filter : OperationFilter) (s t : System)
    (hP : ((jobsOf s.gen.mRequestedOperations).Nodup ∧ Exclusive s.gen) ∧ DestroyedOnce s.gen)
    (h : cancelStep filter s = some t) : DestroyedOnce t.gen := by
  obtain ⟨g, w, c⟩ := s
  obtain ⟨⟨hq, hex⟩, hnd, hdel⟩ := hP
  simp only at hq hex hnd hdel
  cases c <;> simp only [cancelStep] at h
  case start =>
    simp only [Option.some.injEq] at h
    subst h
    unfold DestroyedOnce
    simp only [removeOperationsLocked_deleted, removeOperationsLocked_queue,
      removeOperationsLocked_current]
    refine ⟨?_, ?_⟩
    · rw [List.nodup_append]
      refine ⟨hnd, ?_, ?_⟩
      · exact List.Nodup.sublist
          (List.Sublist.filter _ (List.filter_sublist g.mRequestedOperations)) hq
      · intro a ha hb
        exact (hdel a ha).2.1 (List.mem_filter.mp (mem_jobsOf.mp hb).1).1
    · intro p hp
      rw [List.mem_append] at hp
      rcases hp with hp | hp
      · exact ⟨(hdel p hp).1, fun hmem => (hdel p hp).2.1 (List.mem_filter.mp hmem).1,
          (hdel p hp).2.2⟩
      · obtain ⟨hpf, hp0⟩ := mem_jobsOf.mp hp
        obtain ⟨hpq, hpsel⟩ := List.mem_filter.mp hpf
        refine ⟨hp0, ?_, ?_⟩
        · intro hmem
          have hns := (List.mem_filter.mp hmem).2
          rw [hpsel] at hns
          exact absurd hns (by decide)
        · intro heq
          subst heq
          exact hex hp0 hpq
  case test =>
    split at h <;> (simp only [Option.some.injEq] at h; subst h; exact ⟨hnd, hdel⟩)
  case relock =>
    simp only [Option.some.injEq] at h
    subst h
    exact ⟨hnd, hdel⟩
  case woken =>
    simp only [Option.some.injEq] at h
    subst h
    exact ⟨hnd, hdel⟩
  case waiting => exact absurd h (by simp)
  case returned => exact absurd h (by simp)

theorem destroyedOnce_schedule (j : OpPtr) (g : TexturesGenerator) (hfresh : freshJob g j)
    (hP : DestroyedOnce g) : DestroyedOnce (scheduleOperation j g) := by
  obtain ⟨hnd, hdel⟩ := hP
  have habs : j = 0 ∨ j ∉ g.mRequestedOperations := by
    rcases hfresh with h0 | hf
    · exact Or.inl h0
    · exact Or.inr hf.1
  rw [scheduleOperation_absent j g habs]
  refine ⟨hnd, fun p hp => ⟨(hdel p hp).1, ?_, (hdel p hp).2.2⟩⟩
  simp only [List.mem_append, List.mem_singleton, not_or]
  refine ⟨(hdel p hp).2.1, ?_⟩
  intro heq
  subst heq
  rcases hfresh with h0 | hf
  · exact (hdel p hp).1 h0
  · exact hf.2.2 hp

/-- When producers submit every job once, never one the generator holds or has
destroyed, no job is destroyed twice and no destroyed job is queued or current,
in every reachable state. -/
theorem destroyed_once_when_fresh (s : System) (hreach : Reachable freshJob s) :
    DestroyedOnce s.gen := by
  have hinv : ((jobsOf s.gen.mRequestedOperations).Nodup ∧ Exclusive s.gen)
      ∧ DestroyedOnce s.gen := by
    refine reachable_invariant freshJob
      (fun s => ((jobsOf s.gen.mRequestedOperations).Nodup ∧ Exclusive s.gen)
        ∧ DestroyedOnce s.gen) ?_ ?_ s hreach
    · exact ⟨⟨by decide, fun hne => absurd rfl hne⟩, by decide, fun p hp => nomatch hp⟩
    · intro s t hP hn
      cases hn with
      | worker h => exact ⟨exclusive_worker s t hP.1 h, destroyedOnce_worker s t hP h⟩
      | canceller filter h =>
        exact ⟨exclusive_canceller filter s t hP.1 h, destroyedOnce_canceller filter s t hP h⟩
      | call _ ht =>
        subst ht
        exact hP
      | schedule j hfresh ht =>
        subst ht
        refine ⟨exclusive_schedule j s.gen ?_ hP.1, destroyedOnce_schedule j s.gen hfresh hP.2⟩
        rcases hfresh with h0 | hf
        · exact Or.inl h0
        · exact Or.inr hf.2.1
  exact hinv.2

/-! ## Scheduling the job in the slot once more -/

end WebCore
